import Mathlib

/-
Verification of the task-execution orchestrator of the AA-coding-agent
repository.  The definitions below are a shallow embedding of
src/app/api/tasks/[taskId]/execute/route.ts, src/lib/crypto.ts and the
stop endpoint: pure functions are translated directly, the stateful
pipeline is modelled as a deterministic interpreter over an explicit
environment of oracles (external store writes, adapter results, timer
firing), and machine-level effects (database reads that throw) are
modelled with Except/Option.
-/

namespace AASpec

/-! ## Task status and store rows -/

/-- Task status enum of the tasks table: pending, processing, completed,
error, stopped.  The error message is kept in a separate store field,
mirroring the separate error column. -/
inductive St
  | pending
  | processing
  | completed
  | error
  | stopped
deriving DecidableEq, Repr

/-- Row of the tasks table, restricted to the fields the trigger endpoint
inspects. -/
structure TaskRow where
  id : String
  userId : String
  status : St
deriving DecidableEq, Repr

/-! ## isTaskStopped (route.ts lines 275-282)

The helper reads the task row and reports whether its status is stopped;
a throwing read is caught and reported as false. -/

/-- Embedding of isTaskStopped: the argument is the outcome of the
db.select call, Except.error when the read throws, otherwise the status
of the row (none when no row matched).  The comparison decide mirrors
the strict equality check against the string literal stopped. -/
def isTaskStopped (res : Except String (Option St)) : Bool :=
  match res with
  | .error _ => false
  | .ok s => decide (s = some St.stopped)

/-! ## Prompt sanitization (route.ts line 483)

sanitizedPrompt = prompt.replace over backticks to apostrophes, removal
of dollar signs, removal of backslashes, and a space inserted before a
dash at the start of any line (multiline anchor). -/

/-- Line terminators recognized by the multiline anchor of a JavaScript
regular expression: LF, CR, LINE SEPARATOR, PARAGRAPH SEPARATOR. -/
def isLineTerm (c : Char) : Bool :=
  c.toNat = 10 || c.toNat = 13 || c.toNat = 0x2028 || c.toNat = 0x2029

/-- Embedding of .replace over the pattern of a dash anchored at line
start with multiline and global flags, replaced by space-dash.  The flag
records whether the scanner stands at a line start. -/
def fixLeadingDash : Bool → List Char → List Char
  | _, [] => []
  | atStart, c :: rest =>
    if atStart && c = Char.ofNat 45 then
      Char.ofNat 32 :: Char.ofNat 45 :: fixLeadingDash false rest
    else
      c :: fixLeadingDash (isLineTerm c) rest

/-- The four replace passes of route.ts line 483 over the character list
of the prompt: backticks become apostrophes, dollar signs and
backslashes are removed, and a leading dash on any line is pushed behind
a space. -/
def sanitizeChars (p : List Char) : List Char :=
  fixLeadingDash true
    (((p.map (fun c => if c = Char.ofNat 96 then Char.ofNat 39 else c)).filter
        (fun c => c ≠ Char.ofNat 36)).filter
      (fun c => c ≠ Char.ofNat 92))

/-- Embedding of the sanitizedPrompt expression on strings. -/
def sanitizedPrompt (p : String) : String :=
  String.mk (sanitizeChars p.data)

/-- Scanner for a dash standing at the start of some line of the text,
with the same line terminators as the multiline anchor. -/
def hasLeadingDash : Bool → List Char → Bool
  | _, [] => false
  | atStart, c :: rest =>
    (atStart && c = Char.ofNat 45) || hasLeadingDash (isLineTerm c) rest

/-! ## Trigger endpoint decision logic (route.ts lines 38-204)

The POST handler authenticates the request, fetches the task, verifies
ownership, gates on the pending status, resolves user credentials and
only then schedules the detached pipeline. -/

/-- HTTP responses the trigger endpoint can produce. -/
inductive HttpResp
  | ok200
  | badRequest400
  | unauthorized401
  | notFound404
  | serverError500
deriving DecidableEq, Repr

/-- Request-side inputs of the POST handler: whether the internal secret
header matches, the userId of the body, and whether the credential and
settings lookups performed after the status gate throw. -/
structure ExecReq where
  internalSecretOk : Bool
  userId : Option String
  fetchFail : Bool
deriving DecidableEq, Repr

/-- Status gate of the POST handler (route.ts lines 69-81): any status
other than pending is rejected with 400; afterwards the credential and
settings lookups run (throwing into the 500 handler); only then is the
pipeline scheduled. -/
def postGate (req : ExecReq) (t : TaskRow) : HttpResp × Bool :=
  if t.status ≠ St.pending then (.badRequest400, false)
  else if req.fetchFail then (.serverError500, false)
  else (.ok200, true)

/-- Ownership check and status gate of the POST handler (route.ts lines
63-74): a supplied userId must match the owner of the task, otherwise
401.  The second component of the result tells whether the detached
background pipeline was scheduled via after(). -/
def postOwned (req : ExecReq) (t : TaskRow) : HttpResp × Bool :=
  match req.userId with
  | some u => if t.userId ≠ u then (.unauthorized401, false) else postGate req t
  | none => postGate req t

/-- Top level of the POST handler: authentication, task lookup, then the
ownership and status gates of postOwned. -/
def POST (req : ExecReq) (task : Option TaskRow) : HttpResp × Bool :=
  if !req.internalSecretOk && req.userId = none then
    (.unauthorized401, false)
  else
    match task with
    | none => (.notFound404, false)
    | some t => postOwned req t

/-- A request passing the authentication and ownership checks of the
POST handler for the given task: it carries the internal secret or a
userId, and any supplied userId matches the owner of the task. -/
def authorizedFor (req : ExecReq) (t : TaskRow) : Bool :=
  (req.internalSecretOk || req.userId.isSome) &&
    (match req.userId with
     | some u => decide (t.userId = u)
     | none => true)

/-! ## Lemmas about sanitization -/

/-- Characters produced by the leading-dash pass either come from the
input or are the inserted space or the rewritten dash. -/
theorem mem_fixLeadingDash {c : Char} :
    ∀ (b : Bool) (l : List Char), c ∈ fixLeadingDash b l →
      c ∈ l ∨ c = Char.ofNat 32 ∨ c = Char.ofNat 45 := by
  intro b l
  induction l generalizing b with
  | nil => intro h; simp [fixLeadingDash] at h
  | cons x xs ih =>
    intro h
    unfold fixLeadingDash at h
    split at h
    · rw [List.mem_cons, List.mem_cons] at h
      rcases h with h | h | h
      · exact Or.inr (Or.inl h)
      · exact Or.inr (Or.inr h)
      · rcases ih false h with h1 | h2
        · exact Or.inl (List.mem_cons_of_mem x h1)
        · exact Or.inr h2
    · rw [List.mem_cons] at h
      rcases h with h | h
      · exact Or.inl (h ▸ List.mem_cons_self x xs)
      · rcases ih (isLineTerm x) h with h1 | h2
        · exact Or.inl (List.mem_cons_of_mem x h1)
        · exact Or.inr h2

/-- After the leading-dash pass, no line of the result begins with a
dash. -/
theorem fixLeadingDash_no_dash :
    ∀ (l : List Char) (b : Bool),
      hasLeadingDash b (fixLeadingDash b l) = false := by
  intro l
  induction l with
  | nil => intro b; rfl
  | cons x xs ih =>
    intro b
    unfold fixLeadingDash
    split
    · have h32 : isLineTerm (Char.ofNat 32) = false := by decide
      have h45 : isLineTerm (Char.ofNat 45) = false := by decide
      have hne : (decide (Char.ofNat 32 = Char.ofNat 45)) = false := by decide
      simp [hasLeadingDash, h32, h45, hne, ih false]
    · rename_i hcond
      have : (b && decide (x = Char.ofNat 45)) = false := by
        simpa using hcond
      simp [hasLeadingDash, this, ih (isLineTerm x)]

/-- C8 (confirmed): for every prompt string, the sanitized prompt passed
to agent execution contains no backtick (code 96), no dollar sign
(code 36), no backslash (code 92), and no line beginning with a dash. -/
theorem c8_sanitized_prompt (p : String) :
    Char.ofNat 96 ∉ (sanitizedPrompt p).data ∧
    Char.ofNat 36 ∉ (sanitizedPrompt p).data ∧
    Char.ofNat 92 ∉ (sanitizedPrompt p).data ∧
    hasLeadingDash true (sanitizedPrompt p).data = false := by
  have hdata : (sanitizedPrompt p).data = sanitizeChars p.data := rfl
  rw [hdata]
  refine ⟨?_, ?_, ?_, ?_⟩
  · intro hmem
    unfold sanitizeChars at hmem
    rcases mem_fixLeadingDash true _ hmem with h | h | h
    · have h1 := (List.mem_filter.mp h).1
      have h2 := (List.mem_filter.mp h1).1
      rcases List.mem_map.mp h2 with ⟨a, _, ha⟩
      by_cases hc : a = Char.ofNat 96
      · simp [hc] at ha
      · simp [hc] at ha
    · exact absurd h (by decide)
    · exact absurd h (by decide)
  · intro hmem
    unfold sanitizeChars at hmem
    rcases mem_fixLeadingDash true _ hmem with h | h | h
    · have h1 := (List.mem_filter.mp h).1
      have h2 := (List.mem_filter.mp h1).2
      simp at h2
    · exact absurd h (by decide)
    · exact absurd h (by decide)
  · intro hmem
    unfold sanitizeChars at hmem
    rcases mem_fixLeadingDash true _ hmem with h | h | h
    · have h2 := (List.mem_filter.mp h).2
      simp at h2
    · exact absurd h (by decide)
    · exact absurd h (by decide)
  · exact fixLeadingDash_no_dash _ true

/-! ## Theorems about the trigger endpoint -/

/-- C6 counterexample: for a task in processing, a request whose userId
does not match the owner is rejected with HTTP 401, not with the HTTP
400 the claim states, so the claim as stated is false. -/
theorem c6_counterexample :
    POST { internalSecretOk := false, userId := some "u2", fetchFail := false }
        (some { id := "t1", userId := "u1", status := St.processing }) =
      (HttpResp.unauthorized401, false) ∧
    HttpResp.unauthorized401 ≠ HttpResp.badRequest400 := by
  exact ⟨rfl, by decide⟩

/-- C6 (amended): the pipeline is scheduled only for a task currently in
pending, and a request that passes the authentication and ownership
checks on a task whose status is not pending is rejected with HTTP 400
without scheduling background work; a request failing those checks is
rejected with 401 instead. -/
theorem c6_pending_gate :
    (∀ (req : ExecReq) (task : Option TaskRow),
        (POST req task).2 = true → ∃ t, task = some t ∧ t.status = St.pending) ∧
    (∀ (req : ExecReq) (t : TaskRow),
        authorizedFor req t = true → t.status ≠ St.pending →
        POST req (some t) = (HttpResp.badRequest400, false)) := by
  have gate_sched : ∀ (req : ExecReq) (t : TaskRow),
      (postGate req t).2 = true → t.status = St.pending := by
    intro req t h
    unfold postGate at h
    split at h
    · simp at h
    · rename_i hst
      exact not_not.mp hst
  have gate_400 : ∀ (req : ExecReq) (t : TaskRow),
      t.status ≠ St.pending → postGate req t = (HttpResp.badRequest400, false) := by
    intro req t hst
    simp [postGate, hst]
  have owned_sched : ∀ (req : ExecReq) (t : TaskRow),
      (postOwned req t).2 = true → t.status = St.pending := by
    intro req t h
    unfold postOwned at h
    split at h
    · split at h
      · simp at h
      · exact gate_sched req t h
    · exact gate_sched req t h
  constructor
  · intro req task h
    rcases task with _ | t
    · unfold POST at h
      split at h
      · simp at h
      · simp at h
    · refine ⟨t, rfl, ?_⟩
      unfold POST at h
      split at h
      · simp at h
      · exact owned_sched req t h
  · intro req t hauth hst
    unfold POST
    unfold authorizedFor at hauth
    rcases hu : req.userId with _ | u
    · rw [hu] at hauth
      simp at hauth
      simp [hu, hauth, postOwned, gate_400 req t hst]
    · rw [hu] at hauth
      simp at hauth
      simp [hu, hauth, postOwned, gate_400 req t hst]

/-- C6 amended-claim witness at a concrete input: an internal-secret
request on a processing task is rejected with 400 and nothing is
scheduled. -/
theorem c6_pending_gate_witness :
    authorizedFor { internalSecretOk := true, userId := none, fetchFail := false }
        { id := "t1", userId := "u1", status := St.processing } = true ∧
    ({ id := "t1", userId := "u1", status := St.processing } : TaskRow).status ≠ St.pending ∧
    POST { internalSecretOk := true, userId := none, fetchFail := false }
        (some { id := "t1", userId := "u1", status := St.processing }) =
      (HttpResp.badRequest400, false) :=
  ⟨by decide, by decide,
    c6_pending_gate.2 _ _ (by decide) (by decide)⟩

/-! ## Credential encryption (src/lib/crypto.ts)

Buffers are modelled as lists of byte values (Nat below 256) and the
JavaScript strings holding hex-encoded material as lists of characters.
The aes-256-gcm primitive of the node crypto library is not code of this
repository; it is embedded through its interface: a keyed block function
E drives counter-mode encryption (GCM never applies the inverse cipher),
and a keyed tag function T is computed at encryption time and recomputed
and compared at decryption time, a mismatch throwing (mapped to none).
The legacy aes-256-cbc decryption of the two-part format is likewise a
parameter D.  All statements are proved for every E, T and D, which
covers the actual AES instantiation. -/

/-- IV length for the GCM format (crypto.ts line 5). -/
def IV_LENGTH_GCM : Nat := 12

/-- The separator of the iv:ciphertext:tag format. -/
def colon : Char := Char.ofNat 58

/-- Lower-case hex digit of a value below 16, as produced by
Buffer.toString with hex encoding. -/
def hexDigitChar (n : Nat) : Char :=
  Char.ofNat (if n < 10 then 48 + n else 87 + n)

/-- Numeric value of a hex digit accepted by Buffer.from with hex
encoding (both cases), none for other characters. -/
def hexCharVal (c : Char) : Option Nat :=
  if 48 ≤ c.toNat ∧ c.toNat ≤ 57 then some (c.toNat - 48)
  else if 97 ≤ c.toNat ∧ c.toNat ≤ 102 then some (c.toNat - 87)
  else if 65 ≤ c.toNat ∧ c.toNat ≤ 70 then some (c.toNat - 55)
  else none

/-- Two hex digits of one byte. -/
def byteHex (b : Nat) : List Char :=
  [hexDigitChar (b / 16), hexDigitChar (b % 16)]

/-- Buffer.toString with hex encoding. -/
def hexEncode (bs : List Nat) : List Char :=
  bs.flatMap byteHex

/-- Buffer.from with hex encoding: complete pairs of hex digits are
decoded, decoding stops at the first invalid pair or odd tail. -/
def hexDecode : List Char → List Nat
  | c1 :: c2 :: rest =>
    match hexCharVal c1, hexCharVal c2 with
    | some hi, some lo => (16 * hi + lo) :: hexDecode rest
    | _, _ => []
  | _ => []

/-- String.prototype.includes for the colon separator. -/
def hasColon (l : List Char) : Bool :=
  l.any (fun c => c = colon)

/-- Worker of String.prototype.split at colon: the first part paired
with the remaining parts. -/
def splitAux : List Char → List Char × List (List Char)
  | [] => ([], [])
  | c :: rest =>
    let p := splitAux rest
    if c = colon then ([], p.1 :: p.2) else (c :: p.1, p.2)

/-- String.prototype.split at every colon. -/
def splitOnColon (l : List Char) : List (List Char) :=
  (splitAux l).1 :: (splitAux l).2

/-- Big-endian 32-bit block counter of GCM counter mode. -/
def counterBytes (i : Nat) : List Nat :=
  [i / 2 ^ 24 % 256, i / 2 ^ 16 % 256, i / 2 ^ 8 % 256, i % 256]

/-- Counter-mode keystream of aes-256-gcm for a 12-byte IV: the block
function applied to iv with counters starting at 2, truncated to n
bytes. -/
def keystream (E : List Nat → List Nat → List Nat)
    (key iv : List Nat) (n : Nat) : List Nat :=
  ((List.range ((n + 15) / 16)).flatMap
    (fun i => E key (iv ++ counterBytes (i + 2)))).take n

/-- Byte-wise xor of two buffers. -/
def xorBytes (a b : List Nat) : List Nat :=
  List.zipWith (fun x y => x ^^^ y) a b

/-- cipher.update plus cipher.final plus cipher.getAuthTag for
aes-256-gcm: counter-mode encryption and the authentication tag. -/
def gcmEncrypt (E : List Nat → List Nat → List Nat)
    (T : List Nat → List Nat → List Nat → List Nat)
    (key iv pt : List Nat) : List Nat × List Nat :=
  let ct := xorBytes pt (keystream E key iv pt.length)
  (ct, T key iv ct)

/-- decipher.setAuthTag, update and final for aes-256-gcm: the tag is
recomputed and compared, a mismatch throws (none); otherwise counter
mode is applied again. -/
def gcmDecrypt (E : List Nat → List Nat → List Nat)
    (T : List Nat → List Nat → List Nat → List Nat)
    (key iv ct tag : List Nat) : Option (List Nat) :=
  if T key iv ct = tag then some (xorBytes ct (keystream E key iv ct.length))
  else none

/-- Embedding of getEncryptionKey (crypto.ts lines 9-21): none when the
environment variable is unset, a thrown error when the decoded key is
not 32 bytes. -/
def getEncryptionKey (env : Option (List Char)) :
    Except Unit (Option (List Nat)) :=
  match env with
  | none => .ok none
  | some k =>
    if (hexDecode k).length ≠ 32 then .error ()
    else .ok (some (hexDecode k))

/-- Embedding of encrypt (crypto.ts lines 23-39): empty input is
returned unchanged, a missing key throws, otherwise the GCM format
iv:ciphertext:tag in hex. -/
def encrypt (E : List Nat → List Nat → List Nat)
    (T : List Nat → List Nat → List Nat → List Nat)
    (env : Option (List Char)) (iv text : List Nat) :
    Except Unit (List Char) :=
  if text = [] then .ok []
  else
    match getEncryptionKey env with
    | .error _ => .error ()
    | .ok none => .error ()
    | .ok (some key) =>
      .ok (hexEncode iv ++ colon ::
            hexEncode (gcmEncrypt E T key iv text).1 ++ colon ::
            hexEncode (gcmEncrypt E T key iv text).2)

/-- Embedding of decrypt (crypto.ts lines 41-88): empty input and a
missing key give none, a malformed key length propagates the throw, a
text without colon gives none, three parts select the GCM branch (an
authentication failure is caught to none), two parts the legacy CBC
branch D, anything else none. -/
def decrypt (E : List Nat → List Nat → List Nat)
    (T : List Nat → List Nat → List Nat → List Nat)
    (D : List Nat → List Nat → List Nat → Option (List Nat))
    (env : Option (List Char)) (enc : List Char) :
    Except Unit (Option (List Nat)) :=
  if enc = [] then .ok none
  else
    match getEncryptionKey env with
    | .error _ => .error ()
    | .ok none => .ok none
    | .ok (some key) =>
      if !hasColon enc then .ok none
      else
        match splitOnColon enc with
        | [ivHex, ctHex, tagHex] =>
          match gcmDecrypt E T key (hexDecode ivHex) (hexDecode ctHex)
              (hexDecode tagHex) with
          | some pt => .ok (some pt)
          | none => .ok none
        | [ivHex, ctHex] => .ok (D key (hexDecode ivHex) (hexDecode ctHex))
        | _ => .ok none

/-! ## Lemmas about hex, split and GCM -/

/-- Decoding a produced hex digit recovers the value. -/
theorem hexVal_digit : ∀ n < 16, hexCharVal (hexDigitChar n) = some n := by
  decide

/-- A produced hex digit is never the colon separator. -/
theorem digit_ne_colon : ∀ n < 16, hexDigitChar n ≠ colon := by
  decide

/-- Hex round trip on byte lists. -/
theorem hexDecode_hexEncode :
    ∀ bs : List Nat, (∀ b ∈ bs, b < 256) → hexDecode (hexEncode bs) = bs := by
  intro bs
  induction bs with
  | nil => intro _; rfl
  | cons b rest ih =>
    intro h
    have hb : b < 256 := h b (List.mem_cons_self _ _)
    have h1 : b / 16 < 16 := (Nat.div_lt_iff_lt_mul (by norm_num)).mpr (by omega)
    have h2 : b % 16 < 16 := Nat.mod_lt _ (by norm_num)
    have hrest : ∀ x ∈ rest, x < 256 := fun x hx => h x (List.mem_cons_of_mem _ hx)
    have hform : hexEncode (b :: rest) =
        hexDigitChar (b / 16) :: hexDigitChar (b % 16) :: hexEncode rest := rfl
    rw [hform]
    unfold hexDecode
    rw [hexVal_digit _ h1, hexVal_digit _ h2]
    simp only
    rw [Nat.div_add_mod b 16, ih hrest]

/-- The colon separator never occurs in hex-encoded bytes. -/
theorem colon_not_mem_hexEncode :
    ∀ bs : List Nat, (∀ b ∈ bs, b < 256) → colon ∉ hexEncode bs := by
  intro bs
  induction bs with
  | nil => intro _ h; simp [hexEncode] at h
  | cons b rest ih =>
    intro h hmem
    have hb : b < 256 := h b (List.mem_cons_self _ _)
    have h1 : b / 16 < 16 := (Nat.div_lt_iff_lt_mul (by norm_num)).mpr (by omega)
    have h2 : b % 16 < 16 := Nat.mod_lt _ (by norm_num)
    have hform : hexEncode (b :: rest) =
        hexDigitChar (b / 16) :: hexDigitChar (b % 16) :: hexEncode rest := rfl
    rw [hform, List.mem_cons, List.mem_cons] at hmem
    rcases hmem with hc | hc | hc
    · exact digit_ne_colon _ h1 hc.symm
    · exact digit_ne_colon _ h2 hc.symm
    · exact ih (fun x hx => h x (List.mem_cons_of_mem _ hx)) hc

/-- A colon-free text forms a single split part. -/
theorem splitAux_nocolon :
    ∀ a : List Char, colon ∉ a → splitAux a = (a, []) := by
  intro a
  induction a with
  | nil => intro _; rfl
  | cons c rest ih =>
    intro h
    have hc : c ≠ colon := fun hcc => h (hcc ▸ List.mem_cons_self _ _)
    have hrest : colon ∉ rest := fun hm => h (List.mem_cons_of_mem _ hm)
    simp [splitAux, ih hrest, hc]

/-- Splitting a colon-free part followed by a colon and a remainder. -/
theorem splitAux_append :
    ∀ (a rest : List Char), colon ∉ a →
      splitAux (a ++ colon :: rest) =
        (a, (splitAux rest).1 :: (splitAux rest).2) := by
  intro a
  induction a with
  | nil =>
    intro rest _
    simp [splitAux]
  | cons c a ih =>
    intro rest h
    have hc : c ≠ colon := fun hcc => h (hcc ▸ List.mem_cons_self _ _)
    have ha : colon ∉ a := fun hm => h (List.mem_cons_of_mem _ hm)
    simp [splitAux, ih rest ha, hc]

/-- Splitting the three-part GCM format recovers its components. -/
theorem splitOnColon_three (a b c : List Char)
    (ha : colon ∉ a) (hb : colon ∉ b) (hc : colon ∉ c) :
    splitOnColon (a ++ colon :: (b ++ colon :: c)) = [a, b, c] := by
  unfold splitOnColon
  rw [splitAux_append a (b ++ colon :: c) ha, splitAux_append b c hb,
    splitAux_nocolon c hc]

/-- Length of a flatMap whose blocks all have the same length. -/
theorem length_flatMap_const {α β : Type} (f : α → List β) (k : Nat)
    (hf : ∀ a, (f a).length = k) :
    ∀ l : List α, (l.flatMap f).length = k * l.length := by
  intro l
  induction l with
  | nil => simp
  | cons a l ih =>
    simp [List.length_append, hf a, ih, Nat.mul_succ, Nat.add_comm]

/-- The keystream has the requested length for a 16-byte block
function. -/
theorem keystream_length (E : List Nat → List Nat → List Nat)
    (hE : ∀ k b, (E k b).length = 16) (key iv : List Nat) (n : Nat) :
    (keystream E key iv n).length = n := by
  unfold keystream
  rw [List.length_take]
  have hlen : ((List.range ((n + 15) / 16)).flatMap
      (fun i => E key (iv ++ counterBytes (i + 2)))).length =
      16 * ((n + 15) / 16) := by
    rw [length_flatMap_const _ 16 (fun i => hE key _), List.length_range]
  rw [hlen]
  have hdm := Nat.div_add_mod (n + 15) 16
  have hmlt : (n + 15) % 16 < 16 := Nat.mod_lt _ (by norm_num)
  omega

/-- Keystream bytes are below 256 when the block function produces
bytes. -/
theorem keystream_lt (E : List Nat → List Nat → List Nat)
    (hEb : ∀ k b x, x ∈ E k b → x < 256) (key iv : List Nat) (n : Nat) :
    ∀ x ∈ keystream E key iv n, x < 256 := by
  intro x hx
  unfold keystream at hx
  have hx2 := List.mem_of_mem_take hx
  rcases List.mem_flatMap.mp hx2 with ⟨i, _, hmem⟩
  exact hEb key _ x hmem

/-- Applying the keystream twice recovers the plaintext. -/
theorem xorBytes_cancel :
    ∀ (pt ks : List Nat), pt.length = ks.length →
      xorBytes (xorBytes pt ks) ks = pt := by
  intro pt
  induction pt with
  | nil => intro ks _; rfl
  | cons a pt ih =>
    intro ks hlen
    match ks with
    | [] => simp at hlen
    | b :: ks =>
      show ((a ^^^ b) ^^^ b) :: xorBytes (xorBytes pt ks) ks = a :: pt
      rw [Nat.xor_cancel_right, ih ks (by simpa using hlen)]

/-- Xor of bytes stays below 256. -/
theorem xorBytes_lt :
    ∀ (a b : List Nat), (∀ x ∈ a, x < 256) → (∀ x ∈ b, x < 256) →
      ∀ x ∈ xorBytes a b, x < 256 := by
  intro a
  induction a with
  | nil => intro b _ _ x hx; simp [xorBytes] at hx
  | cons u a ih =>
    intro b ha hb x hx
    match b with
    | [] => simp [xorBytes] at hx
    | v :: b =>
      simp only [xorBytes, List.zipWith, List.mem_cons] at hx
      rcases hx with hx | hx
      · have hu : u < 256 := ha u (List.mem_cons_self _ _)
        have hv : v < 256 := hb v (List.mem_cons_self _ _)
        have h256 : (256 : Nat) = 2 ^ 8 := by norm_num
        rw [hx, h256]
        exact Nat.xor_lt_two_pow (h256 ▸ hu) (h256 ▸ hv)
      · exact ih b (fun y hy => ha y (List.mem_cons_of_mem _ hy))
          (fun y hy => hb y (List.mem_cons_of_mem _ hy)) x hx

/-- Length of xorBytes when the keystream is long enough. -/
theorem xorBytes_length (a b : List Nat) (h : a.length ≤ b.length) :
    (xorBytes a b).length = a.length := by
  unfold xorBytes
  rw [List.length_zipWith]
  omega

/-- C9 (confirmed): for every non-empty byte string and every valid
32-byte hex key, decrypting the result of encryption returns the
original text, for any block function, tag function and legacy CBC
decryptor satisfying the byte-level interface of the library. -/
theorem c9_encrypt_decrypt_roundtrip
    (E : List Nat → List Nat → List Nat)
    (T : List Nat → List Nat → List Nat → List Nat)
    (D : List Nat → List Nat → List Nat → Option (List Nat))
    (keyHex : List Char) (iv text : List Nat)
    (hE : ∀ k b, (E k b).length = 16)
    (hEb : ∀ k b x, x ∈ E k b → x < 256)
    (hTb : ∀ k i c x, x ∈ T k i c → x < 256)
    (hkey : (hexDecode keyHex).length = 32)
    (hivlen : iv.length = IV_LENGTH_GCM)
    (hiv : ∀ x ∈ iv, x < 256)
    (htext : text ≠ [])
    (htb : ∀ x ∈ text, x < 256) :
    ∃ enc, encrypt E T (some keyHex) iv text = Except.ok enc ∧
      decrypt E T D (some keyHex) enc = Except.ok (some text) := by
  have hkeyok : getEncryptionKey (some keyHex) =
      Except.ok (some (hexDecode keyHex)) := by
    simp [getEncryptionKey, hkey]
  have hkslen : (keystream E (hexDecode keyHex) iv text.length).length =
      text.length := keystream_length E hE _ iv _
  have hctlen :
      (xorBytes text (keystream E (hexDecode keyHex) iv text.length)).length =
      text.length := xorBytes_length _ _ (by omega)
  have hctlt :
      ∀ x ∈ xorBytes text (keystream E (hexDecode keyHex) iv text.length),
        x < 256 := xorBytes_lt _ _ htb (keystream_lt E hEb _ iv _)
  have htaglt : ∀ x ∈ T (hexDecode keyHex) iv
      (xorBytes text (keystream E (hexDecode keyHex) iv text.length)),
        x < 256 := fun x hx => hTb _ _ _ x hx
  refine ⟨hexEncode iv ++ colon ::
      (hexEncode (xorBytes text (keystream E (hexDecode keyHex) iv text.length)) ++
        colon :: hexEncode (T (hexDecode keyHex) iv
          (xorBytes text (keystream E (hexDecode keyHex) iv text.length)))),
    ?_, ?_⟩
  · unfold encrypt
    rw [if_neg htext, hkeyok]
    simp [gcmEncrypt]
  · have hne : hexEncode iv ++ colon ::
        (hexEncode (xorBytes text (keystream E (hexDecode keyHex) iv text.length)) ++
          colon :: hexEncode (T (hexDecode keyHex) iv
            (xorBytes text (keystream E (hexDecode keyHex) iv text.length)))) ≠
        ([] : List Char) := by
      intro hcon
      have := congrArg List.length hcon
      simp [List.length_append] at this
    have hhas : hasColon (hexEncode iv ++ colon ::
        (hexEncode (xorBytes text (keystream E (hexDecode keyHex) iv text.length)) ++
          colon :: hexEncode (T (hexDecode keyHex) iv
            (xorBytes text (keystream E (hexDecode keyHex) iv text.length))))) =
        true := by
      unfold hasColon
      rw [List.any_eq_true]
      exact ⟨colon, by simp, by simp⟩
    have hsplit := splitOnColon_three (hexEncode iv)
      (hexEncode (xorBytes text (keystream E (hexDecode keyHex) iv text.length)))
      (hexEncode (T (hexDecode keyHex) iv
        (xorBytes text (keystream E (hexDecode keyHex) iv text.length))))
      (colon_not_mem_hexEncode iv hiv)
      (colon_not_mem_hexEncode _ hctlt)
      (colon_not_mem_hexEncode _ htaglt)
    have hdec : gcmDecrypt E T (hexDecode keyHex) iv
        (xorBytes text (keystream E (hexDecode keyHex) iv text.length))
        (T (hexDecode keyHex) iv
          (xorBytes text (keystream E (hexDecode keyHex) iv text.length))) =
        some text := by
      unfold gcmDecrypt
      rw [if_pos rfl, hctlen,
        xorBytes_cancel text (keystream E (hexDecode keyHex) iv text.length)
          (by omega)]
    unfold decrypt
    rw [if_neg hne, hkeyok]
    simp only [hhas, Bool.not_true, Bool.false_eq_true, if_false, hsplit,
      hexDecode_hexEncode iv hiv, hexDecode_hexEncode _ hctlt,
      hexDecode_hexEncode _ htaglt, hdec]

/-- C9 witness at concrete byte-level primitives and inputs: the
round trip evaluates to the original two-byte text. -/
theorem c9_roundtrip_witness :
    ∃ enc,
      encrypt (fun _ _ => List.replicate 16 7) (fun _ _ _ => [1, 2])
        (some (hexEncode (List.replicate 32 0))) (List.replicate 12 0)
        [104, 105] = Except.ok enc ∧
      decrypt (fun _ _ => List.replicate 16 7) (fun _ _ _ => [1, 2])
        (fun _ _ _ => none)
        (some (hexEncode (List.replicate 32 0))) enc =
        Except.ok (some [104, 105]) :=
  c9_encrypt_decrypt_roundtrip
    (fun _ _ => List.replicate 16 7) (fun _ _ _ => [1, 2])
    (fun _ _ _ => none)
    (hexEncode (List.replicate 32 0)) (List.replicate 12 0) [104, 105]
    (fun _ _ => by simp)
    (fun _ _ x hx => by
      have := List.eq_of_mem_replicate hx
      omega)
    (fun _ _ _ x hx => by
      have h := hx
      simp [List.mem_cons] at h
      rcases h with h | h <;> omega)
    (by decide)
    (by decide)
    (fun x hx => by
      have := List.eq_of_mem_replicate hx
      omega)
    (by decide)
    (fun x hx => by
      have h := hx
      simp [List.mem_cons] at h
      rcases h with h | h <;> omega)

/-! ## The orchestrator pipeline (route.ts lines 206-564)

processTask is a sequential chain of awaited store operations and
blocking calls.  It is embedded as a deterministic interpreter over an
environment of oracles: external writers (the stop endpoint of the task
resource and the branch-name generation writer) may run between any two
awaited steps, so every atomic step of the pipeline first applies the
deadline firing and the external events scheduled for its index (tick),
then performs its own store interaction.  The status and progress writes
of the task logger are modelled from the spec: updateStatus persists the
status and its message, updateProgress persists the percentage, info and
message inserts touch only the message log and are not part of the
modelled store.  The mcpServerIds bookkeeping write (route.ts lines
468-477) touches none of the modelled fields and is omitted. -/

/-- Writer of a store write: the pipeline itself, the deadline-race
catch handler, or an external request handler. -/
inductive WriteSrc
  | orch
  | race
  | ext
deriving DecidableEq, Repr

/-- One persisted write: a status (with its message), a progress
percentage, the sandbox-metadata update of route.ts line 436 (carrying
the fallback branch only when no AI name was observed), or the
branch-name write of the generation writer. -/
inductive WriteEv
  | wStatus (s : St) (msg : String)
  | wProgress (p : Nat) (msg : String)
  | wTask (branch : Option String)
  | wBranch (b : String)
deriving DecidableEq, Repr

/-- The modelled fields of the persisted task row. -/
structure Store where
  status : St
  statusMsg : String
  branchName : Option String
  progress : Nat
deriving DecidableEq, Repr

/-- Effect of one write on the store. -/
def applyEv (st : Store) : WriteEv → Store
  | .wStatus s m => { st with status := s, statusMsg := m }
  | .wProgress p _ => { st with progress := p }
  | .wTask b =>
    match b with
    | some v => { st with branchName := some v }
    | none => st
  | .wBranch b => { st with branchName := some b }

/-- External events that can land between two pipeline steps: a stop
request (PATCH with action stop) or the branch-name generation writer
completing. -/
inductive ExtEvent
  | stopReq
  | aiName (b : String)
deriving DecidableEq, Repr

/-- Outcome of createSandbox apart from cooperative cancellation:
success (with the sandbox handle present or not, and the branch name the
adapter used as fallback), a failure result, or a thrown exception. -/
inductive SbRes
  | okS (hasSandbox : Bool) (fallbackBranch : String)
  | failS (msg : Option String)
  | thrownS (msg : String)
deriving DecidableEq, Repr

/-- Outcome of executeAgentInSandbox: success, a failure result, or a
thrown exception. -/
inductive AgRes
  | okA
  | failA (msg : Option String)
  | thrownA (msg : String)
deriving DecidableEq, Repr

/-- Outcome of pushChangesToBranch: pushed, committed but not pushed, or
a thrown exception. -/
inductive PushRes
  | pushedOk
  | commitOnly
  | thrownP (msg : String)
deriving DecidableEq, Repr

/-- Oracle environment of one run: task inputs, the store content at
pipeline start, the external events and store-read failures scheduled
for each step index, the step before which the deadline timer fires (if
it fires while the pipeline still runs), whether the sandbox adapter
polls its cancellation callback, and the results of the blocking
calls. -/
structure Env where
  taskId : String
  repoUrl : String
  githubToken : Option String
  initBranch : Option String
  dbErrMsg : String
  extEvents : Nat → List ExtEvent
  readFail : Nat → Bool
  fireAt : Option Nat
  sandboxPoll : Bool
  sbRes : SbRes
  agRes : AgRes
  pushRes : PushRes

/-- Interpreter state: the store, the ordered log of persisted writes,
the next step index, and whether the deadline write has happened. -/
structure M where
  store : Store
  hist : List (WriteSrc × WriteEv)
  idx : Nat
  fired : Bool
deriving DecidableEq, Repr

/-- Status message of updateStatus at route.ts line 327. -/
def processingMsg : String := "Task created, preparing to start..."

/-- Progress message at route.ts line 328. -/
def initProgressMsg : String := "Initializing task execution..."

/-- Progress message at route.ts line 369. -/
def sbProgressMsg : String := "Creating sandbox environment"

/-- Progress message at route.ts line 443. -/
def agentProgressMsg : String := "Installing and executing agent"

/-- Progress message at route.ts line 511. -/
def pushProgressMsg : String := "Committing and pushing changes"

/-- Progress message at route.ts line 540. -/
def doneProgressMsg : String := "Task completed"

/-- Status message of the completed write at route.ts line 541. -/
def completedMsg : String := "Task completed successfully"

/-- Error annotation the stop endpoint persists together with the
stopped status. -/
def stoppedMsg : String := "Task was stopped by user"

/-- Status message of the timeout classification at route.ts line 267. -/
def raceTimeoutMsg : String :=
  "Task execution timed out. The operation took too long to complete."

/-- Fallback message of the catch handler at route.ts line 554 for a
thrown value that is not an Error. -/
def genericErrorMsg : String := "An unexpected error occurred"

/-- Fallback error at route.ts line 408. -/
def sandboxFailMsg : String := "Failed to create sandbox"

/-- Fallback error at route.ts line 507. -/
def agentFailMsg : String := "Agent execution failed"

/-- Error thrown at route.ts line 446 when the adapter returned no
sandbox handle. -/
def noSandboxMsg : String := "Sandbox is not available for agent execution"

/-- Append one write to the store and the log. -/
def pushW (m : M) (src : WriteSrc) (ev : WriteEv) : M :=
  { m with store := applyEv m.store ev, hist := m.hist ++ [(src, ev)] }

/-- Effect of one external event.  The stop endpoint writes stopped only
when the current status is processing (part of its 400 gate); the
generation writer sets the branch name unconditionally. -/
def extApply (m : M) : ExtEvent → M
  | .stopReq =>
    if m.store.status = St.processing then
      pushW m .ext (.wStatus .stopped stoppedMsg)
    else m
  | .aiName b => pushW m .ext (.wBranch b)

/-- One interleaving point: the deadline write lands if the timer fires
here (the race catch classifies the rejection by its message and
persists the timeout error), then the scheduled external events land,
then the index advances. -/
def tick (env : Env) (m : M) : M :=
  let m1 :=
    if env.fireAt = some m.idx then
      { pushW m .race (.wStatus .error raceTimeoutMsg) with fired := true }
    else m
  let m2 := (env.extEvents m.idx).foldl extApply m1
  { m2 with idx := m.idx + 1 }

/-- The db.select of a cancellation checkpoint: it may throw, otherwise
it returns the status of the row. -/
def chkRead (env : Env) (i : Nat) (st : Store) : Except String (Option St) :=
  if env.readFail i then .error env.dbErrMsg else .ok (some st.status)

/-- One cancellation checkpoint: an interleaving point followed by
isTaskStopped over the fresh read. -/
def chkAct (env : Env) (m : M) : M × Bool :=
  (tick env m, isTaskStopped (chkRead env m.idx (tick env m).store))

/-- Grace period of the branch-name wait (route.ts line 356). -/
def branchWaitMs : Nat := 10000

/-- Poll interval of the branch-name wait (route.ts line 298). -/
def branchPollMs : Nat := 500

/-- Embedding of waitForBranchName (route.ts lines 285-302): polls the
persisted branch name once per interval until the grace period elapses;
a throwing read is ignored and polling continues. -/
def waitForBranchName (env : Env) : M → Nat → M × Option String
  | m, 0 => (m, none)
  | m, Nat.succ fuel =>
    if env.readFail m.idx then waitForBranchName env (tick env m) fuel
    else
      match (tick env m).store.branchName with
      | some b => (tick env m, some b)
      | none => waitForBranchName env (tick env m) fuel

/-- How the pipeline ended: a checkpoint observed stopped, the sandbox
adapter cancelled cooperatively, the catch handler persisted an error,
or the success path completed. -/
inductive Exit
  | stopObserved
  | sbCancelled
  | finished
  | failed (msg : String)
deriving DecidableEq, Repr

/-- Result of one pipeline run: final store, the ordered log of
persisted writes, whether the deadline write happened, whether some
cancellation check observed stopped, whether the push step ran, the
branch name passed to createSandbox, and the result of the branch-name
wait. -/
structure RunOut where
  store : Store
  hist : List (WriteSrc × WriteEv)
  fired : Bool
  observed : Bool
  pushed : Bool
  preBranch : Option String
  waited : Option String
  exit : Exit
deriving DecidableEq, Repr

/-- Early return after a cancellation check observed stopped: local
cleanup only, no store write. -/
def stopOut (m : M) (e : Exit) (pushed : Bool) (preB waited : Option String) :
    RunOut :=
  { store := m.store, hist := m.hist, fired := m.fired, observed := true,
    pushed := pushed, preBranch := preB, waited := waited, exit := e }

/-- The catch handler of processTask (route.ts lines 552-563): persists
the error status with the message of the thrown error, then best-effort
teardown. -/
def catchOut (env : Env) (m : M) (msg : String) (pushed : Bool)
    (preB waited : Option String) : RunOut :=
  let m1 := pushW (tick env m) .orch (.wStatus .error msg)
  { store := m1.store, hist := m1.hist, fired := m1.fired, observed := false,
    pushed := pushed, preBranch := preB, waited := waited, exit := .failed msg }

/-- Success return of processTask after the completed write. -/
def doneOut (m : M) (pushed : Bool) (preB waited : Option String) : RunOut :=
  { store := m.store, hist := m.hist, fired := m.fired, observed := false,
    pushed := pushed, preBranch := preB, waited := waited, exit := .finished }

/-- Store content when the detached pipeline starts: the trigger
endpoint only schedules pending tasks, and the branch name may have been
written already by the generation step that runs first. -/
def initialStore (env : Env) : Store :=
  { status := .pending, statusMsg := "", branchName := env.initBranch,
    progress := 0 }

/-- Publication stage of processTask (route.ts lines 511-551): progress
90, the fresh branch-name read of line 514 (a throwing read reaches the
catch handler), the push step only with a repository and a token, then
progress 100 and the completed status write with no further cancellation
check. -/
def pushStage (env : Env) (m : M) (ai : Option String) : RunOut :=
  let m13 := pushW (tick env m) .orch (.wProgress 90 pushProgressMsg)
  let m14 := tick env m13
  if env.readFail m13.idx then catchOut env m14 env.dbErrMsg false ai ai
  else
    if env.repoUrl ≠ "" && env.githubToken.isSome then
      let m15 := tick env m14
      match env.pushRes with
      | .thrownP msg => catchOut env m15 msg true ai ai
      | _ =>
        let m16 := pushW (tick env m15) .orch (.wProgress 100 doneProgressMsg)
        let m17 := pushW (tick env m16) .orch (.wStatus .completed completedMsg)
        doneOut m17 true ai ai
    else
      let m16 := pushW (tick env m14) .orch (.wProgress 100 doneProgressMsg)
      let m17 := pushW (tick env m16) .orch (.wStatus .completed completedMsg)
      doneOut m17 false ai ai

/-- Agent stage of processTask (route.ts lines 443-508): progress 50,
the missing-handle throw, the agent call, and on a failure result the
cancellation check of line 503 before the throw. -/
def agentStage (env : Env) (m : M) (ai : Option String) (hasSb : Bool) :
    RunOut :=
  let m11 := pushW (tick env m) .orch (.wProgress 50 agentProgressMsg)
  if !hasSb then catchOut env m11 noSandboxMsg false ai ai
  else
    let m12 := tick env m11
    match env.agRes with
    | .thrownA msg => catchOut env m12 msg false ai ai
    | .failA msg =>
      match chkAct env m12 with
      | (m13, true) => stopOut m13 .stopObserved false ai ai
      | (m13, false) => catchOut env m13 (msg.getD agentFailMsg) false ai ai
    | .okA => pushStage env m12 ai

/-- In-call cancellation poll of createSandbox: the adapter may invoke
the onCancellationCheck callback (which is isTaskStopped) during the
blocking call and translates a positive answer into a cancelled
result. -/
def sbCallCheck (env : Env) (m : M) : M × Bool :=
  ((chkAct env m).1, env.sandboxPoll && (chkAct env m).2)

/-- Sandbox stage of processTask (route.ts lines 375-441): the
createSandbox call with its in-call cancellation poll, the cancelled and
failure outcomes, the checkpoint of line 411, the metadata update of
line 436 carrying the fallback branch name only when no AI name was
observed by the wait, and the checkpoint of line 438. -/
def sbStage (env : Env) (m : M) (ai : Option String) : RunOut :=
  match sbCallCheck env m with
  | (m7, true) => stopOut m7 .sbCancelled false ai ai
  | (m7, false) =>
      match env.sbRes with
      | .thrownS msg => catchOut env m7 msg false ai ai
      | .failS msg => catchOut env m7 (msg.getD sandboxFailMsg) false ai ai
      | .okS hasSb fb =>
        match chkAct env m7 with
        | (m8, true) => stopOut m8 .stopObserved false ai ai
        | (m8, false) =>
          let m9 := pushW (tick env m8) .orch
            (.wTask (match ai with | none => some fb | some _ => none))
          match chkAct env m9 with
          | (m10, true) => stopOut m10 .stopObserved false ai ai
          | (m10, false) => agentStage env m10 ai hasSb

/-- Continuation of processTask after the branch-name wait: the
checkpoint of line 358, the progress-15 write, then the sandbox, agent
and publication stages. -/
def postWaitStage (env : Env) (m : M) (ai : Option String) : RunOut :=
  match chkAct env m with
  | (m5, true) => stopOut m5 .stopObserved false none ai
  | (m5, false) =>
    let m6 := pushW (tick env m5) .orch (.wProgress 15 sbProgressMsg)
    sbStage env m6 ai

/-- Embedding of processTask (route.ts lines 304-564): the processing
and progress-10 writes, the checkpoint of line 351, the branch-name
wait, then postWaitStage. -/
def processTask (env : Env) : RunOut :=
  let m0 : M := { store := initialStore env, hist := [], idx := 0,
                  fired := false }
  let m1 := pushW (tick env m0) .orch (.wStatus .processing processingMsg)
  let m2 := pushW (tick env m1) .orch (.wProgress 10 initProgressMsg)
  match chkAct env m2 with
  | (m3, true) => stopOut m3 .stopObserved false none none
  | (m3, false) =>
    match waitForBranchName env m3 (branchWaitMs / branchPollMs) with
    | (m4, ai) => postWaitStage env m4 ai


/-- Timer handles of processTaskWithTimeout. -/
inductive Timer
  | warning
  | deadline
deriving DecidableEq, Repr

/-- Run of processTaskWithTimeout together with its timer
bookkeeping. -/
structure TimedRun where
  run : RunOut
  timersCreated : List Timer
  timersCleared : List Timer
deriving DecidableEq, Repr

/-- Embedding of processTaskWithTimeout (route.ts lines 206-272): the
warning setTimeout handle is kept and cleared both on the success path
of the race (line 261) and in the catch handler (line 263); the deadline
setTimeout handle created inside the timeout promise (line 238) is
dropped and never cleared.  The race resolves deterministically over the
same environment; the deadline write itself is part of tick. -/
def processTaskWithTimeout (env : Env) : TimedRun :=
  let r := processTask env
  { run := r,
    timersCreated := [Timer.warning, Timer.deadline],
    timersCleared := if r.fired then [Timer.warning] else [Timer.warning] }

/-- Status writes of a log, with their writers, in order. -/
def statusWrites : List (WriteSrc × WriteEv) → List (WriteSrc × St)
  | [] => []
  | (src, WriteEv.wStatus s _) :: rest => (src, s) :: statusWrites rest
  | _ :: rest => statusWrites rest

/-- A benign environment used by several concrete runs: standalone task,
branch name already persisted, no external events, no firing deadline,
all calls succeed. -/
def baseEnv : Env :=
  { taskId := "t1", repoUrl := "", githubToken := none,
    initBranch := some "ai-branch", dbErrMsg := "database read failed",
    extEvents := fun _ => [], readFail := fun _ => false,
    fireAt := none, sandboxPoll := false,
    sbRes := .okS true "fallback-branch", agRes := .okA,
    pushRes := .pushedOk }

/-! ## Stickiness of the stopped status (C1) -/

/-- A cancellation check that returned true saw the stopped status in
the store it read. -/
theorem chkAct_true {env : Env} {m m' : M}
    (h : chkAct env m = (m', true)) : m'.store.status = St.stopped := by
  unfold chkAct at h
  have h1 : tick env m = m' := congrArg Prod.fst h
  have h2 : isTaskStopped (chkRead env m.idx (tick env m).store) = true :=
    congrArg Prod.snd h
  unfold chkRead at h2
  by_cases hr : env.readFail m.idx
  · rw [if_pos hr] at h2
    simp [isTaskStopped] at h2
  · rw [if_neg hr] at h2
    simp [isTaskStopped] at h2
    rw [← h1]
    exact h2

/-- A positive in-call cancellation poll saw the stopped status. -/
theorem sbCallCheck_true {env : Env} {m m' : M}
    (h : sbCallCheck env m = (m', true)) : m'.store.status = St.stopped := by
  unfold sbCallCheck at h
  have h1 : (chkAct env m).1 = m' := congrArg Prod.fst h
  have h2 : (env.sandboxPoll && (chkAct env m).2) = true := congrArg Prod.snd h
  have hcb : (chkAct env m).2 = true := by
    simp only [Bool.and_eq_true] at h2
    exact h2.2
  exact chkAct_true (m := m) (by rw [← h1, ← hcb])

/-- The publication stage never reports an observed stop. -/
theorem pushStage_observed (env : Env) (m : M) (ai : Option String) :
    (pushStage env m ai).observed = false := by
  simp only [pushStage]
  repeat' split
  all_goals simp [catchOut, doneOut, apply_ite]

/-- If the agent stage reports an observed stop, the final store status
is stopped. -/
theorem agentStage_observed (env : Env) (m : M) (ai : Option String)
    (hasSb : Bool) (h : (agentStage env m ai hasSb).observed = true) :
    (agentStage env m ai hasSb).store.status = St.stopped := by
  revert h
  simp only [agentStage]
  repeat' split
  all_goals intro h
  all_goals first
    | simp [catchOut] at h
    | (rw [pushStage_observed] at h; simp at h)
    | (simp only [stopOut]; exact chkAct_true (by assumption))

/-- If the sandbox stage reports an observed stop, the final store
status is stopped. -/
theorem sbStage_observed (env : Env) (m : M) (ai : Option String)
    (h : (sbStage env m ai).observed = true) :
    (sbStage env m ai).store.status = St.stopped := by
  revert h
  simp only [sbStage]
  repeat' split
  all_goals intro h
  all_goals first
    | simp [catchOut] at h
    | (simp only [stopOut]; exact sbCallCheck_true (by assumption))
    | (simp only [stopOut]; exact chkAct_true (by assumption))
    | (exact agentStage_observed env _ ai _ h)

/-- If the stage following the branch-name wait reports an observed
stop, the final store status is stopped. -/
theorem postWaitStage_observed (env : Env) (m : M) (ai : Option String)
    (h : (postWaitStage env m ai).observed = true) :
    (postWaitStage env m ai).store.status = St.stopped := by
  revert h
  simp only [postWaitStage]
  repeat' split
  all_goals intro h
  all_goals first
    | (simp only [stopOut]; exact chkAct_true (by assumption))
    | (exact sbStage_observed env _ _ h)

/-- C1 (amended): whenever some cancellation checkpoint of the pipeline
observes the stopped status, the pipeline returns without any further
status write, so the final store status remains stopped; a stopped
status that no checkpoint observes (for example written while a call is
in flight that then throws) is not protected. -/
theorem c1_stop_sticky_when_observed (env : Env)
    (h : (processTask env).observed = true) :
    (processTask env).store.status = St.stopped := by
  revert h
  simp only [processTask]
  repeat' split
  all_goals intro h
  all_goals first
    | (simp only [stopOut]; exact chkAct_true (by assumption))
    | (exact postWaitStage_observed env _ _ h)

/-- Environment of the C1 witness: a stop request lands right before
the first cancellation checkpoint. -/
def c1WitnessEnv : Env :=
  { baseEnv with extEvents := fun i => if i = 2 then [.stopReq] else [] }

/-- C1 amended-claim witness: the first checkpoint observes the stop
written while the pipeline was initializing, and the final status is
stopped. -/
theorem c1_stop_sticky_witness :
    (processTask c1WitnessEnv).observed = true ∧
    (processTask c1WitnessEnv).store.status = St.stopped :=
  ⟨by decide, c1_stop_sticky_when_observed c1WitnessEnv (by decide)⟩

/-- Environment of the C1 counterexample: a stop request lands while
createSandbox is in flight and the call then throws. -/
def c1CexEnv : Env :=
  { baseEnv with
    extEvents := fun i => if i = 6 then [.stopReq] else [],
    sbRes := .thrownS "sandbox provisioning exploded" }

/-- C1 counterexample: the stop request writes stopped while the
sandbox call is in flight; the call throws before any checkpoint runs
again, and the catch handler of processTask overwrites the status with
error, so the claim that no subsequent orchestrator write changes a
written stopped status is false. -/
theorem c1_counterexample :
    statusWrites (processTask c1CexEnv).hist =
      [(WriteSrc.orch, St.processing), (WriteSrc.ext, St.stopped),
       (WriteSrc.orch, St.error)] ∧
    (processTask c1CexEnv).store.status = St.error ∧
    St.error ≠ St.stopped := by
  refine ⟨by decide, by decide, by decide⟩

/-! ## Status transitions without concurrent writers (C2) -/

/-- statusWrites distributes over append. -/
theorem statusWrites_append (l1 l2 : List (WriteSrc × WriteEv)) :
    statusWrites (l1 ++ l2) = statusWrites l1 ++ statusWrites l2 := by
  induction l1 with
  | nil => rfl
  | cons x rest ih =>
    cases x with
    | mk src ev => cases ev <;> simp [statusWrites, ih]

/-- With no external events and no firing deadline, an interleaving
point only advances the index. -/
theorem tick_clean {env : Env} (h1 : ∀ i, env.extEvents i = [])
    (h2 : env.fireAt = none) (m : M) :
    tick env m = { m with idx := m.idx + 1 } := by
  unfold tick
  rw [h2, h1]
  simp

/-- With no external events and no firing deadline, a cancellation
checkpoint on a store that is not stopped returns false. -/
theorem chkAct_clean {env : Env} (h1 : ∀ i, env.extEvents i = [])
    (h2 : env.fireAt = none) (m : M) (hst : m.store.status ≠ St.stopped) :
    chkAct env m = ({ m with idx := m.idx + 1 }, false) := by
  unfold chkAct chkRead
  rw [tick_clean h1 h2]
  by_cases hr : env.readFail m.idx = true
  · simp [hr, isTaskStopped]
  · simp only [Bool.not_eq_true] at hr
    simp [hr, isTaskStopped, hst]

/-- The state component of a checkpoint is always the ticked state. -/
theorem chkAct_fst (env : Env) (m : M) : (chkAct env m).1 = tick env m := rfl

/-- The state component of the in-call poll is always the ticked
state. -/
theorem sbCallCheck_fst (env : Env) (m : M) :
    (sbCallCheck env m).1 = tick env m := rfl

/-- Under a clean environment the branch-name wait changes neither the
store nor the log nor the firing flag. -/
theorem wait_clean {env : Env} (h1 : ∀ i, env.extEvents i = [])
    (h2 : env.fireAt = none) :
    ∀ (fuel : Nat) (m : M),
      (waitForBranchName env m fuel).1.store = m.store ∧
      (waitForBranchName env m fuel).1.hist = m.hist ∧
      (waitForBranchName env m fuel).1.fired = m.fired := by
  intro fuel
  induction fuel with
  | zero => intro m; exact ⟨rfl, rfl, rfl⟩
  | succ fuel ih =>
    intro m
    unfold waitForBranchName
    rw [tick_clean h1 h2]
    by_cases hr : env.readFail m.idx = true
    · simp only [hr, if_true]
      simpa using ih { m with idx := m.idx + 1 }
    · simp only [Bool.not_eq_true] at hr
      simp only [hr, Bool.false_eq_true, if_false]
      cases hb : m.store.branchName with
      | some b => simp [hb]
      | none =>
        simp only [hb]
        simpa using ih { m with idx := m.idx + 1 }

/-- Under a clean environment the publication stage appends exactly one
terminal status write. -/
theorem pushStage_clean {env : Env} (h1 : ∀ i, env.extEvents i = [])
    (h2 : env.fireAt = none) (m : M) (ai : Option String) :
    ∃ t, statusWrites (pushStage env m ai).hist =
      statusWrites m.hist ++ [(WriteSrc.orch, t)] ∧
      (t = St.completed ∨ t = St.error) := by
  simp only [pushStage]
  repeat' split
  all_goals first
    | (refine ⟨St.error, ?_, Or.inr rfl⟩
       simp [catchOut, pushW, tick_clean h1 h2, statusWrites_append,
         statusWrites]
       done)
    | (refine ⟨St.completed, ?_, Or.inl rfl⟩
       simp [doneOut, pushW, tick_clean h1 h2, statusWrites_append,
         statusWrites]
       done)

/-- Under a clean environment the agent stage appends exactly one
terminal status write when entered with a processing status. -/
theorem agentStage_clean {env : Env} (h1 : ∀ i, env.extEvents i = [])
    (h2 : env.fireAt = none) (m : M) (ai : Option String) (hasSb : Bool)
    (hst : m.store.status = St.processing) :
    ∃ t, statusWrites (agentStage env m ai hasSb).hist =
      statusWrites m.hist ++ [(WriteSrc.orch, t)] ∧
      (t = St.completed ∨ t = St.error) := by
  simp only [agentStage]
  repeat' split
  all_goals first
    | (refine ⟨St.error, ?_, Or.inr rfl⟩
       simp [catchOut, pushW, tick_clean h1 h2, statusWrites_append,
         statusWrites]
       done)
    | (exfalso
       rename_i m13 heq
       have hs := chkAct_true heq
       have hm := congrArg Prod.fst heq
       dsimp only at hm
       rw [chkAct_fst] at hm
       rw [← hm] at hs
       simp [tick_clean h1 h2, pushW, applyEv, hst] at hs)
    | (rename_i m13 heq
       have hm := congrArg Prod.fst heq
       dsimp only at hm
       rw [chkAct_fst] at hm
       refine ⟨St.error, ?_, Or.inr rfl⟩
       rw [← hm]
       simp [catchOut, pushW, tick_clean h1 h2, statusWrites_append,
         statusWrites]
       done)
    | (obtain ⟨t, ht, hor⟩ := pushStage_clean h1 h2
         (tick env (pushW (tick env m) WriteSrc.orch
           (WriteEv.wProgress 50 agentProgressMsg))) ai
       refine ⟨t, ?_, hor⟩
       rw [ht]
       simp [pushW, tick_clean h1 h2, statusWrites_append, statusWrites]
       done)

/-- A checkpoint read on a store that is not stopped reports false. -/
theorem isTaskStopped_chkRead {env : Env} {i : Nat} {st : Store}
    (h : st.status ≠ St.stopped) : isTaskStopped (chkRead env i st) = false := by
  unfold chkRead
  by_cases hr : env.readFail i = true
  · simp [hr, isTaskStopped]
  · simp only [Bool.not_eq_true] at hr
    simp [hr, isTaskStopped, h]

/-- Gluing form of agentStage_clean for use under a normalized goal. -/
theorem agentStage_clean_glue {env : Env} (h1 : ∀ i, env.extEvents i = [])
    (h2 : env.fireAt = none) {m : M} {ai : Option String} {hasSb : Bool}
    {pre : List (WriteSrc × St)}
    (hst : m.store.status = St.processing)
    (hhist : statusWrites m.hist = pre) :
    ∃ t, statusWrites (agentStage env m ai hasSb).hist =
      pre ++ [(WriteSrc.orch, t)] ∧ (t = St.completed ∨ t = St.error) := by
  obtain ⟨t, ht, hor⟩ := agentStage_clean h1 h2 m ai hasSb hst
  exact ⟨t, by rw [ht, hhist], hor⟩

/-- Under a clean environment the sandbox stage appends exactly one
terminal status write when entered with a processing status. -/
theorem sbStage_clean {env : Env} (h1 : ∀ i, env.extEvents i = [])
    (h2 : env.fireAt = none) (m : M) (ai : Option String)
    (hst : m.store.status = St.processing) :
    ∃ t, statusWrites (sbStage env m ai).hist =
      statusWrites m.hist ++ [(WriteSrc.orch, t)] ∧
      (t = St.completed ∨ t = St.error) := by
  rcases hsb : env.sbRes with ⟨hasSb, fb⟩ | msg | msg
  · rcases hai : ai with _ | b <;>
      (simp only [sbStage, sbCallCheck, hsb, hai]
       simp [chkAct, tick_clean h1 h2, isTaskStopped_chkRead, pushW,
         applyEv, hst]
       apply agentStage_clean_glue h1 h2
       · simp [hst]
       · simp [statusWrites_append, statusWrites])
  · refine ⟨St.error, ?_, Or.inr rfl⟩
    simp [sbStage, sbCallCheck, hsb, chkAct, tick_clean h1 h2,
      isTaskStopped_chkRead, hst, catchOut, pushW, applyEv,
      statusWrites_append, statusWrites]
  · refine ⟨St.error, ?_, Or.inr rfl⟩
    simp [sbStage, sbCallCheck, hsb, chkAct, tick_clean h1 h2,
      isTaskStopped_chkRead, hst, catchOut, pushW, applyEv,
      statusWrites_append, statusWrites]

/-- Gluing form of sbStage_clean. -/
theorem sbStage_clean_glue {env : Env} (h1 : ∀ i, env.extEvents i = [])
    (h2 : env.fireAt = none) {m : M} {ai : Option String}
    {pre : List (WriteSrc × St)}
    (hst : m.store.status = St.processing)
    (hhist : statusWrites m.hist = pre) :
    ∃ t, statusWrites (sbStage env m ai).hist =
      pre ++ [(WriteSrc.orch, t)] ∧ (t = St.completed ∨ t = St.error) := by
  obtain ⟨t, ht, hor⟩ := sbStage_clean h1 h2 m ai hst
  exact ⟨t, by rw [ht, hhist], hor⟩

/-- Under a clean environment the post-wait stage appends exactly one
terminal status write when entered with a processing status. -/
theorem postWaitStage_clean {env : Env} (h1 : ∀ i, env.extEvents i = [])
    (h2 : env.fireAt = none) (m : M) (ai : Option String)
    (hst : m.store.status = St.processing) :
    ∃ t, statusWrites (postWaitStage env m ai).hist =
      statusWrites m.hist ++ [(WriteSrc.orch, t)] ∧
      (t = St.completed ∨ t = St.error) := by
  simp only [postWaitStage]
  simp [chkAct, tick_clean h1 h2, isTaskStopped_chkRead, pushW, applyEv, hst]
  apply sbStage_clean_glue h1 h2
  · simp [hst]
  · simp [statusWrites_append, statusWrites]

/-- Gluing form of postWaitStage_clean. -/
theorem postWaitStage_clean_glue {env : Env} (h1 : ∀ i, env.extEvents i = [])
    (h2 : env.fireAt = none) {m : M} {ai : Option String}
    {pre : List (WriteSrc × St)}
    (hst : m.store.status = St.processing)
    (hhist : statusWrites m.hist = pre) :
    ∃ t, statusWrites (postWaitStage env m ai).hist =
      pre ++ [(WriteSrc.orch, t)] ∧ (t = St.completed ∨ t = St.error) := by
  obtain ⟨t, ht, hor⟩ := postWaitStage_clean h1 h2 m ai hst
  exact ⟨t, by rw [ht, hhist], hor⟩

/-- C2 (amended): with no concurrent writer (no external stop request,
no AI branch write, deadline not firing), the status writes of a run are
exactly processing followed by one terminal write, completed or error;
the counterexample shows that a terminal error written by the deadline
race is later overwritten by completed, because the race does not
terminate the still-running pipeline. -/
theorem c2_transitions_without_concurrent_writers (env : Env)
    (h1 : ∀ i, env.extEvents i = []) (h2 : env.fireAt = none) :
    ∃ t, statusWrites (processTask env).hist =
      [(WriteSrc.orch, St.processing), (WriteSrc.orch, t)] ∧
      (t = St.completed ∨ t = St.error) := by
  simp only [processTask]
  simp [chkAct, tick_clean h1 h2, isTaskStopped_chkRead, pushW, applyEv,
    initialStore]
  have hsplitlist : ∀ t : St,
      [(WriteSrc.orch, St.processing), (WriteSrc.orch, t)] =
        [(WriteSrc.orch, St.processing)] ++ [(WriteSrc.orch, t)] :=
    fun _ => rfl
  simp only [hsplitlist]
  apply postWaitStage_clean_glue h1 h2
  · rw [(wait_clean h1 h2 _ _).1]
  · rw [(wait_clean h1 h2 _ _).2.1]
    simp [statusWrites]

/-- C2 amended-claim witness: a clean standalone run writes exactly
processing then completed. -/
theorem c2_transitions_witness :
    (∀ i, baseEnv.extEvents i = []) ∧ baseEnv.fireAt = none ∧
    (∃ t, statusWrites (processTask baseEnv).hist =
      [(WriteSrc.orch, St.processing), (WriteSrc.orch, t)] ∧
      (t = St.completed ∨ t = St.error)) :=
  ⟨fun _ => rfl, rfl,
    c2_transitions_without_concurrent_writers baseEnv (fun _ => rfl) rfl⟩

/-- Environment of the C2 counterexample: the deadline fires while the
agent call is in flight and the pipeline then completes. -/
def c2CexEnv : Env := { baseEnv with fireAt := some 11 }

/-- C2 counterexample: the deadline race writes error while the
pipeline is still running; the pipeline is not terminated and later
overwrites the terminal error with completed, so the claimed transition
discipline (a terminal status is never later changed, in particular a
race-written error is never overwritten by completed) is false. -/
theorem c2_counterexample :
    statusWrites (processTask c2CexEnv).hist =
      [(WriteSrc.orch, St.processing), (WriteSrc.race, St.error),
       (WriteSrc.orch, St.completed)] ∧
    (processTask c2CexEnv).store.status = St.completed := by
  exact ⟨by decide, by decide⟩

/-! ## Timer bookkeeping of the deadline race (C3) -/

/-- C3 (amended): the warning timer is cleared on every exit path of
the race, but the deadline timer handle, dropped inside the timeout
promise, is never cleared on any path. -/
theorem c3_warning_cleared_deadline_never (env : Env) :
    Timer.warning ∈ (processTaskWithTimeout env).timersCleared ∧
    Timer.deadline ∉ (processTaskWithTimeout env).timersCleared ∧
    (processTaskWithTimeout env).timersCreated =
      [Timer.warning, Timer.deadline] := by
  refine ⟨?_, ?_, ?_⟩
  · simp only [processTaskWithTimeout]
    split <;> simp
  · simp only [processTaskWithTimeout]
    split <;> simp
  · rfl

/-- C3 counterexample: in a run whose pipeline finishes, the deadline
timer was created but is not among the cleared timers, so the claim
that both timers are cancelled on every exit path is false. -/
theorem c3_counterexample :
    (processTaskWithTimeout baseEnv).run.exit = Exit.finished ∧
    Timer.deadline ∈ (processTaskWithTimeout baseEnv).timersCreated ∧
    Timer.deadline ∉ (processTaskWithTimeout baseEnv).timersCleared := by
  refine ⟨by decide, by decide, by decide⟩

/-! ## The timeout write of the deadline race (C4) -/

/-- The status write the deadline race performs when it fires. -/
def raceEntry : WriteSrc × WriteEv :=
  (WriteSrc.race, WriteEv.wStatus St.error raceTimeoutMsg)

/-- A state in which a fired deadline implies its write is in the
log. -/
def fil (m : M) : Prop := m.fired = true → raceEntry ∈ m.hist

/-- A run result in which a fired deadline implies its write is in the
log. -/
def filR (r : RunOut) : Prop := r.fired = true → raceEntry ∈ r.hist

/-- Orchestrator writes preserve the fired-implies-logged invariant. -/
theorem pushW_fil {m : M} (src : WriteSrc) (ev : WriteEv) (h : fil m) :
    fil (pushW m src ev) := by
  intro hf
  exact List.mem_append_left _ (h hf)

/-- External events preserve the fired-implies-logged invariant. -/
theorem extApply_fil {m : M} (e : ExtEvent) (h : fil m) :
    fil (extApply m e) := by
  cases e with
  | stopReq =>
    unfold extApply
    by_cases hc : m.store.status = St.processing
    · rw [if_pos hc]
      exact pushW_fil _ _ h
    · rw [if_neg hc]
      exact h
  | aiName b => exact pushW_fil _ _ h

/-- Folding external events preserves the invariant. -/
theorem foldl_extApply_fil :
    ∀ (evs : List ExtEvent) (m : M), fil m → fil (evs.foldl extApply m) := by
  intro evs
  induction evs with
  | nil => intro m h; exact h
  | cons e evs ih =>
    intro m h
    exact ih (extApply m e) (extApply_fil e h)

/-- An interleaving point preserves (and on firing establishes) the
invariant. -/
theorem tick_fil (env : Env) {m : M} (h : fil m) : fil (tick env m) := by
  unfold tick
  by_cases hf : env.fireAt = some m.idx
  · simp only [hf, if_pos rfl]
    have h1 : fil { pushW m WriteSrc.race
        (WriteEv.wStatus St.error raceTimeoutMsg) with fired := true } := by
      intro _
      exact List.mem_append_right _ (List.mem_singleton_self _)
    have h2 := foldl_extApply_fil (env.extEvents m.idx) _ h1
    intro hfired
    exact h2 hfired
  · simp only [hf, if_neg hf]
    have h2 := foldl_extApply_fil (env.extEvents m.idx) m h
    intro hfired
    exact h2 hfired

/-- A checkpoint outcome preserves the invariant. -/
theorem chkAct_fil_of_eq {env : Env} {m m' : M} {b : Bool}
    (heq : chkAct env m = (m', b)) (h : fil m) : fil m' := by
  have h1 := congrArg Prod.fst heq
  dsimp only at h1
  rw [chkAct_fst] at h1
  rw [← h1]
  exact tick_fil env h

/-- An in-call poll outcome preserves the invariant. -/
theorem sbCallCheck_fil_of_eq {env : Env} {m m' : M} {b : Bool}
    (heq : sbCallCheck env m = (m', b)) (h : fil m) : fil m' := by
  have h1 := congrArg Prod.fst heq
  dsimp only at h1
  rw [sbCallCheck_fst] at h1
  rw [← h1]
  exact tick_fil env h

/-- The catch handler preserves the invariant. -/
theorem catchOut_fil (env : Env) {m : M} (msg : String) (p : Bool)
    (preB w : Option String) (h : fil m) :
    filR (catchOut env m msg p preB w) := by
  intro hf
  have := pushW_fil WriteSrc.orch (WriteEv.wStatus St.error msg)
    (tick_fil env h)
  exact this hf

/-- Early stop returns preserve the invariant. -/
theorem stopOut_fil {m : M} (e : Exit) (p : Bool) (preB w : Option String)
    (h : fil m) : filR (stopOut m e p preB w) := h

/-- The success return preserves the invariant. -/
theorem doneOut_fil {m : M} (p : Bool) (preB w : Option String)
    (h : fil m) : filR (doneOut m p preB w) := h

/-- The branch-name wait preserves the invariant. -/
theorem wait_fil (env : Env) :
    ∀ (fuel : Nat) (m : M), fil m → fil (waitForBranchName env m fuel).1 := by
  intro fuel
  induction fuel with
  | zero => intro m h; exact h
  | succ fuel ih =>
    intro m h
    unfold waitForBranchName
    split
    · exact ih _ (tick_fil env h)
    · split
      · exact tick_fil env h
      · exact ih _ (tick_fil env h)

/-- The publication stage preserves the invariant. -/
theorem pushStage_filR (env : Env) {m : M} (ai : Option String)
    (h : fil m) : filR (pushStage env m ai) := by
  simp only [pushStage]
  repeat' split
  all_goals first
    | (apply catchOut_fil
       repeat' first
         | apply tick_fil
         | apply pushW_fil
         | (refine chkAct_fil_of_eq (by assumption) ?_)
         | (refine sbCallCheck_fil_of_eq (by assumption) ?_)
       exact h)
    | (apply doneOut_fil
       repeat' first
         | apply tick_fil
         | apply pushW_fil
         | (refine chkAct_fil_of_eq (by assumption) ?_)
         | (refine sbCallCheck_fil_of_eq (by assumption) ?_)
       exact h)

/-- The agent stage preserves the invariant. -/
theorem agentStage_filR (env : Env) {m : M} (ai : Option String)
    (hasSb : Bool) (h : fil m) : filR (agentStage env m ai hasSb) := by
  simp only [agentStage]
  repeat' split
  all_goals first
    | (apply catchOut_fil
       repeat' first
         | apply tick_fil
         | apply pushW_fil
         | (refine chkAct_fil_of_eq (by assumption) ?_)
       exact h)
    | (apply stopOut_fil
       repeat' first
         | apply tick_fil
         | apply pushW_fil
         | (refine chkAct_fil_of_eq (by assumption) ?_)
       exact h)
    | (apply pushStage_filR
       repeat' first
         | apply tick_fil
         | apply pushW_fil
         | (refine chkAct_fil_of_eq (by assumption) ?_)
       exact h)

/-- The sandbox stage preserves the invariant. -/
theorem sbStage_filR (env : Env) {m : M} (ai : Option String)
    (h : fil m) : filR (sbStage env m ai) := by
  simp only [sbStage]
  repeat' split
  all_goals first
    | (apply catchOut_fil
       repeat' first
         | apply tick_fil
         | apply pushW_fil
         | (refine chkAct_fil_of_eq (by assumption) ?_)
         | (refine sbCallCheck_fil_of_eq (by assumption) ?_)
       exact h)
    | (apply stopOut_fil
       repeat' first
         | apply tick_fil
         | apply pushW_fil
         | (refine chkAct_fil_of_eq (by assumption) ?_)
         | (refine sbCallCheck_fil_of_eq (by assumption) ?_)
       exact h)
    | (apply agentStage_filR
       repeat' first
         | apply tick_fil
         | apply pushW_fil
         | (refine chkAct_fil_of_eq (by assumption) ?_)
         | (refine sbCallCheck_fil_of_eq (by assumption) ?_)
       exact h)

/-- The post-wait stage preserves the invariant. -/
theorem postWaitStage_filR (env : Env) {m : M} (ai : Option String)
    (h : fil m) : filR (postWaitStage env m ai) := by
  simp only [postWaitStage]
  repeat' split
  all_goals first
    | (apply stopOut_fil
       repeat' first
         | apply tick_fil
         | apply pushW_fil
         | (refine chkAct_fil_of_eq (by assumption) ?_)
       exact h)
    | (apply sbStage_filR
       repeat' first
         | apply tick_fil
         | apply pushW_fil
         | (refine chkAct_fil_of_eq (by assumption) ?_)
       exact h)

/-- The branch-name wait outcome preserves the invariant. -/
theorem wait_fil_of_eq {env : Env} {m m' : M} {fuel : Nat}
    {ai : Option String}
    (heq : waitForBranchName env m fuel = (m', ai)) (h : fil m) :
    fil m' := by
  have h1 := congrArg Prod.fst heq
  dsimp only at h1
  rw [← h1]
  exact wait_fil env fuel m h

/-- Every run satisfies the fired-implies-logged invariant. -/
theorem processTask_filR (env : Env) : filR (processTask env) := by
  have h0 : fil (M.mk (initialStore env) [] 0 false) := by
    intro hf
    simp at hf
  simp only [processTask]
  repeat' split
  all_goals first
    | (apply stopOut_fil
       refine chkAct_fil_of_eq (by assumption) ?_
       repeat' first
         | apply tick_fil
         | apply pushW_fil
       exact h0)
    | (apply postWaitStage_filR
       first
         | (refine wait_fil_of_eq (by assumption) ?_
            refine chkAct_fil_of_eq (by assumption) ?_
            repeat' first
              | apply tick_fil
              | apply pushW_fil
            exact h0)
         | (apply wait_fil
            refine chkAct_fil_of_eq (by assumption) ?_
            repeat' first
              | apply tick_fil
              | apply pushW_fil
            exact h0))

/-- C4 (confirmed): whenever the deadline timer fires before the
pipeline has completed, the race catch handler persists the error
status with the timeout-specific message, which differs from the
generic messages of other pipeline failures. -/
theorem c4_timeout_error_write (env : Env)
    (h : (processTaskWithTimeout env).run.fired = true) :
    (WriteSrc.race, WriteEv.wStatus St.error raceTimeoutMsg) ∈
      (processTaskWithTimeout env).run.hist ∧
    raceTimeoutMsg ≠ genericErrorMsg ∧
    raceTimeoutMsg ≠ sandboxFailMsg ∧
    raceTimeoutMsg ≠ agentFailMsg := by
  refine ⟨?_, by decide, by decide, by decide⟩
  have hp : (processTaskWithTimeout env).run = processTask env := rfl
  rw [hp] at h ⊢
  exact processTask_filR env h

/-- Environment of the C4 witness: the deadline fires before the first
pipeline step. -/
def c4WitnessEnv : Env := { baseEnv with fireAt := some 0 }

/-- C4 witness: a run whose deadline fires immediately contains the
race error write with the timeout-specific message. -/
theorem c4_timeout_witness :
    (processTaskWithTimeout c4WitnessEnv).run.fired = true ∧
    ((WriteSrc.race, WriteEv.wStatus St.error raceTimeoutMsg) ∈
      (processTaskWithTimeout c4WitnessEnv).run.hist ∧
    raceTimeoutMsg ≠ genericErrorMsg ∧
    raceTimeoutMsg ≠ sandboxFailMsg ∧
    raceTimeoutMsg ≠ agentFailMsg) :=
  ⟨by decide, c4_timeout_error_write c4WitnessEnv (by decide)⟩

/-! ## Branch-name wait and fallback persistence (C5)

The relevant environments allow the AI branch-name writer to land at any
step but contain no stop request and no firing deadline: the pipeline
then always reaches the metadata write of route.ts line 436. -/

/-- No stop request is scheduled at any step. -/
def noStops (env : Env) : Prop :=
  ∀ i, ExtEvent.stopReq ∉ env.extEvents i

/-- Log entries survive a write. -/
theorem pushW_mem {m : M} {x : WriteSrc × WriteEv} (src : WriteSrc)
    (ev : WriteEv) (h : x ∈ m.hist) : x ∈ (pushW m src ev).hist :=
  List.mem_append_left _ h

/-- Log entries survive an external event. -/
theorem extApply_mem {m : M} {x : WriteSrc × WriteEv} (e : ExtEvent)
    (h : x ∈ m.hist) : x ∈ (extApply m e).hist := by
  cases e with
  | stopReq =>
    unfold extApply
    by_cases hc : m.store.status = St.processing
    · rw [if_pos hc]
      exact pushW_mem _ _ h
    · rw [if_neg hc]
      exact h
  | aiName b => exact pushW_mem _ _ h

/-- Log entries survive a fold of external events. -/
theorem foldl_extApply_mem {x : WriteSrc × WriteEv} :
    ∀ (evs : List ExtEvent) (m : M), x ∈ m.hist →
      x ∈ (evs.foldl extApply m).hist := by
  intro evs
  induction evs with
  | nil => intro m h; exact h
  | cons e evs ih => intro m h; exact ih _ (extApply_mem e h)

/-- Log entries survive an interleaving point. -/
theorem tick_mem (env : Env) {m : M} {x : WriteSrc × WriteEv}
    (h : x ∈ m.hist) : x ∈ (tick env m).hist := by
  unfold tick
  by_cases hf : env.fireAt = some m.idx
  · simp only [hf, if_pos rfl]
    exact foldl_extApply_mem _ _ (pushW_mem _ _ h)
  · simp only [hf, if_neg hf]
    exact foldl_extApply_mem _ _ h

/-- Log entries survive a checkpoint. -/
theorem chkAct_mem_of_eq {env : Env} {m m' : M} {b : Bool}
    {x : WriteSrc × WriteEv} (heq : chkAct env m = (m', b))
    (h : x ∈ m.hist) : x ∈ m'.hist := by
  have h1 := congrArg Prod.fst heq
  dsimp only at h1
  rw [chkAct_fst] at h1
  rw [← h1]
  exact tick_mem env h

/-- Log entries survive the in-call poll. -/
theorem sbCallCheck_mem_of_eq {env : Env} {m m' : M} {b : Bool}
    {x : WriteSrc × WriteEv} (heq : sbCallCheck env m = (m', b))
    (h : x ∈ m.hist) : x ∈ m'.hist := by
  have h1 := congrArg Prod.fst heq
  dsimp only at h1
  rw [sbCallCheck_fst] at h1
  rw [← h1]
  exact tick_mem env h

/-- Log entries survive the catch handler. -/
theorem catchOut_mem (env : Env) {m : M} {x : WriteSrc × WriteEv}
    (msg : String) (p : Bool) (preB w : Option String)
    (h : x ∈ m.hist) : x ∈ (catchOut env m msg p preB w).hist :=
  pushW_mem _ _ (tick_mem env h)

/-- The publication stage keeps its ai argument in the result and keeps
every log entry. -/
theorem pushStage_keeps (env : Env) {m : M} (ai : Option String)
    {x : WriteSrc × WriteEv} (h : x ∈ m.hist) :
    (pushStage env m ai).preBranch = ai ∧
    (pushStage env m ai).waited = ai ∧
    x ∈ (pushStage env m ai).hist := by
  simp only [pushStage]
  repeat' split
  all_goals refine ⟨rfl, rfl, ?_⟩
  all_goals
    repeat' first
      | apply catchOut_mem
      | apply tick_mem
      | apply pushW_mem
      | (refine chkAct_mem_of_eq (by assumption) ?_)
      | (refine sbCallCheck_mem_of_eq (by assumption) ?_)
  all_goals exact h

/-- The agent stage keeps its ai argument in the result and keeps every
log entry. -/
theorem agentStage_keeps (env : Env) {m : M} (ai : Option String)
    (hasSb : Bool) {x : WriteSrc × WriteEv} (h : x ∈ m.hist) :
    (agentStage env m ai hasSb).preBranch = ai ∧
    (agentStage env m ai hasSb).waited = ai ∧
    x ∈ (agentStage env m ai hasSb).hist := by
  simp only [agentStage]
  repeat' split
  all_goals first
    | (refine ⟨rfl, rfl, ?_⟩
       repeat' first
         | apply catchOut_mem
         | apply tick_mem
         | apply pushW_mem
         | (refine chkAct_mem_of_eq (by assumption) ?_)
       exact h)
    | (apply pushStage_keeps
       repeat' first
         | apply tick_mem
         | apply pushW_mem
         | (refine chkAct_mem_of_eq (by assumption) ?_)
       exact h)

/-- The sandbox stage keeps its ai argument in the result and keeps
every log entry. -/
theorem sbStage_keeps (env : Env) {m : M} (ai : Option String)
    {x : WriteSrc × WriteEv} (h : x ∈ m.hist) :
    (sbStage env m ai).preBranch = ai ∧
    (sbStage env m ai).waited = ai ∧
    x ∈ (sbStage env m ai).hist := by
  simp only [sbStage]
  repeat' split
  all_goals first
    | (refine ⟨rfl, rfl, ?_⟩
       repeat' first
         | apply catchOut_mem
         | apply tick_mem
         | apply pushW_mem
         | (refine chkAct_mem_of_eq (by assumption) ?_)
         | (refine sbCallCheck_mem_of_eq (by assumption) ?_)
       exact h)
    | (apply agentStage_keeps
       repeat' first
         | apply tick_mem
         | apply pushW_mem
         | (refine chkAct_mem_of_eq (by assumption) ?_)
         | (refine sbCallCheck_mem_of_eq (by assumption) ?_)
       exact h)

/-- External events without a stop request preserve the status. -/
theorem extApply_status_ns {m : M} {e : ExtEvent}
    (he : e ≠ ExtEvent.stopReq) :
    (extApply m e).store.status = m.store.status := by
  cases e with
  | stopReq => exact absurd rfl he
  | aiName b => rfl

/-- Folding stop-free external events preserves the status. -/
theorem foldl_status_ns :
    ∀ (evs : List ExtEvent) (m : M),
      (∀ e ∈ evs, e ≠ ExtEvent.stopReq) →
      ((evs.foldl extApply m).store.status = m.store.status) := by
  intro evs
  induction evs with
  | nil => intro m _; rfl
  | cons e evs ih =>
    intro m hs
    rw [List.foldl_cons, ih _ (fun a ha => hs a (List.mem_cons_of_mem _ ha)),
      extApply_status_ns (hs e (List.mem_cons_self _ _))]

/-- With no stop request and no firing deadline, an interleaving point
preserves the status. -/
theorem tick_status_ns {env : Env} (h1 : noStops env)
    (h2 : env.fireAt = none) (m : M) :
    (tick env m).store.status = m.store.status := by
  unfold tick
  rw [h2]
  simp only [reduceCtorEq, if_false]
  exact foldl_status_ns _ m (fun e he hc => h1 m.idx (hc ▸ he))

/-- With no stop request and no firing deadline, the branch-name wait
preserves the status. -/
theorem wait_status_ns {env : Env} (h1 : noStops env)
    (h2 : env.fireAt = none) :
    ∀ (fuel : Nat) (m : M),
      (waitForBranchName env m fuel).1.store.status = m.store.status := by
  intro fuel
  induction fuel with
  | zero => intro m; rfl
  | succ fuel ih =>
    intro m
    unfold waitForBranchName
    split
    · rw [ih _, tick_status_ns h1 h2]
    · split
      · rename_i b hb
        exact tick_status_ns h1 h2 m
      · rw [ih _, tick_status_ns h1 h2]

/-- With no stop request and no firing deadline, the sandbox stage on a
successful adapter result performs the metadata write, whose branch
component is the adapter fallback exactly when the wait observed no
name, and hands the wait result through unchanged. -/
theorem sbStage_c5 {env : Env} (h1 : noStops env) (h2 : env.fireAt = none)
    (hs : Bool) (fb : String) (h3 : env.sbRes = SbRes.okS hs fb)
    (m : M) (ai : Option String) (hst : m.store.status = St.processing) :
    (sbStage env m ai).preBranch = ai ∧
    (sbStage env m ai).waited = ai ∧
    (WriteSrc.orch, WriteEv.wTask
      (match ai with | none => some fb | some _ => none)) ∈
      (sbStage env m ai).hist := by
  rcases ai with _ | b
  all_goals
    simp only [sbStage, sbCallCheck, h3]
  all_goals
    simp [chkAct, isTaskStopped_chkRead, tick_status_ns h1 h2, pushW,
      applyEv, hst]
  all_goals
    refine agentStage_keeps env _ _ ?_
  all_goals
    apply tick_mem
  all_goals
    exact List.mem_append_right _ (List.mem_singleton_self _)

/-- With no stop request and no firing deadline, the post-wait stage on
a successful adapter result performs the metadata write and hands the
wait result through unchanged. -/
theorem postWaitStage_c5 {env : Env} (h1 : noStops env)
    (h2 : env.fireAt = none) (hs : Bool) (fb : String)
    (h3 : env.sbRes = SbRes.okS hs fb) (m : M) (ai : Option String)
    (hst : m.store.status = St.processing) :
    (postWaitStage env m ai).preBranch = ai ∧
    (postWaitStage env m ai).waited = ai ∧
    (WriteSrc.orch, WriteEv.wTask
      (match ai with | none => some fb | some _ => none)) ∈
      (postWaitStage env m ai).hist := by
  simp only [postWaitStage]
  simp [chkAct, isTaskStopped_chkRead, tick_status_ns h1 h2, pushW,
    applyEv, hst]
  exact sbStage_c5 h1 h2 hs fb h3 _ ai
    (by simp [pushW, applyEv, tick_status_ns h1 h2, hst])

/-- Gluing form of postWaitStage_c5, phrased on the waited component of
the result. -/
theorem postWaitStage_c5_glue {env : Env} (h1 : noStops env)
    (h2 : env.fireAt = none) (hs : Bool) (fb : String)
    (h3 : env.sbRes = SbRes.okS hs fb) {m : M} {ai : Option String}
    (hst : m.store.status = St.processing) :
    (postWaitStage env m ai).preBranch = (postWaitStage env m ai).waited ∧
    (WriteSrc.orch, WriteEv.wTask
      (match (postWaitStage env m ai).waited with
       | none => some fb | some _ => none)) ∈
      (postWaitStage env m ai).hist := by
  obtain ⟨hp, hw, hm⟩ := postWaitStage_c5 h1 h2 hs fb h3 m ai hst
  refine ⟨by rw [hp, hw], ?_⟩
  rw [hw]
  exact hm

/-- C5 (amended): with a branch-name writer but no stop request and no
firing deadline, and a successful adapter result, the environment is
created with exactly the name the 10-second wait observed (preBranch
equals the wait result), and the metadata write persists the adapter
fallback exactly when the wait observed no name; the write does not
re-check the store, so an AI name arriving after the wait is overwritten
by the fallback (see the counterexample). -/
theorem c5_branch_wait (env : Env) (hs : Bool) (fb : String)
    (h1 : noStops env) (h2 : env.fireAt = none)
    (h3 : env.sbRes = SbRes.okS hs fb) :
    (processTask env).preBranch = (processTask env).waited ∧
    (WriteSrc.orch, WriteEv.wTask
      (match (processTask env).waited with
       | none => some fb | some _ => none)) ∈ (processTask env).hist := by
  simp only [processTask]
  simp [chkAct, isTaskStopped_chkRead, tick_status_ns h1 h2, pushW,
    applyEv, initialStore]
  apply postWaitStage_c5_glue h1 h2 hs fb h3
  simp [wait_status_ns h1 h2, tick_status_ns h1 h2, pushW, applyEv,
    initialStore]

/-- C5 amended-claim witness: with the branch name already persisted,
the wait observes it, the environment is created with it, and the
metadata write carries no fallback. -/
theorem c5_branch_wait_witness :
    noStops baseEnv ∧ baseEnv.fireAt = none ∧
    baseEnv.sbRes = SbRes.okS true "fallback-branch" ∧
    ((processTask baseEnv).preBranch = (processTask baseEnv).waited ∧
     (WriteSrc.orch, WriteEv.wTask
       (match (processTask baseEnv).waited with
        | none => some "fallback-branch" | some _ => none)) ∈
       (processTask baseEnv).hist) :=
  ⟨fun _ => List.not_mem_nil _, rfl, rfl,
    c5_branch_wait baseEnv true "fallback-branch"
      (fun _ => List.not_mem_nil _) rfl rfl⟩

/-- Environment of the C5 counterexample: no name is persisted during
the whole 10-second wait, and the AI name writer lands right before the
metadata write. -/
def c5CexEnv : Env :=
  { baseEnv with
    initBranch := none,
    extEvents := fun i =>
      if i = 27 then [ExtEvent.aiName "ai-late-name"] else [] }

/-- C5 counterexample: an AI branch name appears in the store after the
grace period has elapsed but before the metadata write; the fallback is
persisted anyway (no re-check), overwriting the AI name, so the claim
that the fallback is persisted only if no AI-derived name has since
appeared is false. -/
theorem c5_counterexample :
    (processTask c5CexEnv).waited = none ∧
    (WriteSrc.ext, WriteEv.wBranch "ai-late-name") ∈
      (processTask c5CexEnv).hist ∧
    (processTask c5CexEnv).store.branchName = some "fallback-branch" := by
  refine ⟨by decide, by decide, by decide⟩

/-! ## Standalone mode skips publication (C7) -/

/-- Without a repository URL or without a token, the publication stage
never invokes the push step. -/
theorem pushStage_pushed {env : Env}
    (hstand : env.repoUrl = "" ∨ env.githubToken = none)
    (m : M) (ai : Option String) : (pushStage env m ai).pushed = false := by
  have hp : (decide (env.repoUrl ≠ "") && env.githubToken.isSome) = false := by
    rcases hstand with hr | ht
    · simp [hr]
    · simp [ht]
  simp only [pushStage]
  rw [hp]
  repeat' split
  all_goals first
    | rfl
    | (simp [catchOut, doneOut]; done)
    | exact absurd (by assumption) Bool.false_ne_true

/-- Without a repository URL or without a token, the agent stage never
invokes the push step. -/
theorem agentStage_pushed {env : Env}
    (hstand : env.repoUrl = "" ∨ env.githubToken = none)
    (m : M) (ai : Option String) (hasSb : Bool) :
    (agentStage env m ai hasSb).pushed = false := by
  simp only [agentStage]
  repeat' split
  all_goals first
    | rfl
    | simp [catchOut, stopOut]
    | exact pushStage_pushed hstand _ _

/-- Without a repository URL or without a token, the sandbox stage never
invokes the push step. -/
theorem sbStage_pushed {env : Env}
    (hstand : env.repoUrl = "" ∨ env.githubToken = none)
    (m : M) (ai : Option String) : (sbStage env m ai).pushed = false := by
  simp only [sbStage]
  repeat' split
  all_goals first
    | rfl
    | simp [catchOut, stopOut]
    | exact agentStage_pushed hstand _ _ _

/-- Without a repository URL or without a token, the post-wait stage
never invokes the push step. -/
theorem postWaitStage_pushed {env : Env}
    (hstand : env.repoUrl = "" ∨ env.githubToken = none)
    (m : M) (ai : Option String) :
    (postWaitStage env m ai).pushed = false := by
  simp only [postWaitStage]
  repeat' split
  all_goals first
    | rfl
    | simp [stopOut]
    | exact sbStage_pushed hstand _ _

/-- Under a clean successful run the post-wait stage reaches the
completed status with progress 100. -/
theorem postWaitStage_success {env : Env} (h1 : ∀ i, env.extEvents i = [])
    (h2 : env.fireAt = none) (h3 : ∀ i, env.readFail i = false)
    (fb : String) (hsb : env.sbRes = SbRes.okS true fb)
    (hag : env.agRes = AgRes.okA)
    (hstand : env.repoUrl = "" ∨ env.githubToken = none)
    (m : M) (ai : Option String) (hst : m.store.status = St.processing) :
    (postWaitStage env m ai).store.status = St.completed ∧
    (postWaitStage env m ai).store.progress = 100 := by
  have hq : ¬(env.repoUrl ≠ "" ∧ env.githubToken.isSome = true) := by
    rcases hstand with hr | ht
    · intro hc; exact hc.1 hr
    · intro hc; rw [ht] at hc; exact absurd hc.2 (by simp)
  rcases ai with _ | b <;>
    (simp only [postWaitStage, sbStage, sbCallCheck, agentStage, pushStage,
       hsb, hag]
     simp [chkAct, chkRead, isTaskStopped, tick_clean h1 h2, h3, pushW,
       applyEv, hst, hq, doneOut])

/-- C7 (confirmed): without a repository URL or without a GitHub token
the push step is never invoked, and a run with no concurrent writers in
which sandbox creation and agent execution succeed still reaches the
completed status with progress 100. -/
theorem c7_standalone_skips_publication (env : Env)
    (hstand : env.repoUrl = "" ∨ env.githubToken = none) :
    (processTask env).pushed = false ∧
    ((∀ i, env.extEvents i = []) → env.fireAt = none →
     (∀ i, env.readFail i = false) →
     ∀ fb, env.sbRes = SbRes.okS true fb → env.agRes = AgRes.okA →
     (processTask env).store.status = St.completed ∧
     (processTask env).store.progress = 100) := by
  constructor
  · simp only [processTask]
    repeat' split
    all_goals first
      | rfl
      | simp [stopOut]
      | exact postWaitStage_pushed hstand _ _
  · intro h1 h2 h3 fb hsb hag
    simp only [processTask]
    simp [chkAct, chkRead, isTaskStopped, tick_clean h1 h2, h3, pushW,
      applyEv, initialStore]
    apply postWaitStage_success h1 h2 h3 fb hsb hag hstand
    rw [(wait_clean h1 h2 _ _).1]

/-- C7 witness: the benign standalone run never pushes and completes
with progress 100. -/
theorem c7_standalone_witness :
    (baseEnv.repoUrl = "" ∨ baseEnv.githubToken = none) ∧
    ((processTask baseEnv).pushed = false ∧
     (processTask baseEnv).store.status = St.completed ∧
     (processTask baseEnv).store.progress = 100) :=
  ⟨Or.inl rfl,
    (c7_standalone_skips_publication baseEnv (Or.inl rfl)).1,
    (c7_standalone_skips_publication baseEnv (Or.inl rfl)).2
      (fun _ => rfl) rfl (fun _ => rfl) "fallback-branch" rfl rfl⟩

/-! ## Failing store reads at a cancellation checkpoint (C10) -/

/-- C10 (confirmed): a throwing store read inside isTaskStopped is
reported as not stopped, and a cancellation checkpoint whose read
throws answers false, so the pipeline continues past the checkpoint
rather than aborting. -/
theorem c10_isTaskStopped_read_failure (msg : String) (env : Env) (m : M) :
    isTaskStopped (Except.error msg) = false ∧
    (env.readFail m.idx = true → (chkAct env m).2 = false) := by
  refine ⟨rfl, ?_⟩
  intro h
  unfold chkAct chkRead
  simp [h, isTaskStopped]

/-- Environment of the C10 witness: every store read throws. -/
def c10WitnessEnv : Env := { baseEnv with readFail := fun _ => true }

/-- C10 witness: at a concrete state whose read throws, the checkpoint
answers false. -/
theorem c10_read_failure_witness :
    c10WitnessEnv.readFail (M.mk (initialStore c10WitnessEnv) [] 0 false).idx
      = true ∧
    (chkAct c10WitnessEnv (M.mk (initialStore c10WitnessEnv) [] 0 false)).2
      = false :=
  ⟨rfl, (c10_isTaskStopped_read_failure "database read failed" c10WitnessEnv
    (M.mk (initialStore c10WitnessEnv) [] 0 false)).2 rfl⟩

end AASpec
